import Mathlib

/-
Shallow embedding of src/NetworkClass.py (corticodes/Neural-Simulation).

Conventions of the embedding:
  - Real-valued NumPy arrays become functions from natural-number indices to
    rationals; matrix products become explicit sums over Finset.range bounded
    by the array sizes stored in the configuration.
  - The transcendental library functions np.exp, np.sqrt, np.cos, np.arctan
    and the constant np.pi are abstracted as explicit function/constant
    parameters of the definitions that use them (the claims settled here do
    not depend on their values, or only on elementary identities such as
    sqrt 0 = 0 which are then hypotheses discharged at concrete instances).
  - Mutable attributes of the Python Network object that are written by
    reset_history or run_model live in the NetState record; attributes fixed
    at construction time live in the Network record.  The fields
    spikes_in, spikes_syn, spikes_t_syn, Ia, active, A, isi, activity_size,
    A_seq, n_seq and the SOC_syn branch of reset_history are omitted: they
    are never read by the code paths the claims concern (Ia is recomputed
    from scratch at each SFA call, A is identically zero).
  - Failures (NameError from the unbound active_neurons local for the SOC
    model, IndexError from fancy-indexing input_t out of range, ValueError
    from a numpy broadcast mismatch in the final Is update) are modelled by
    Option: a step that raises returns none.
-/

namespace NeuralSim

/-- Neuron model variants accepted by the Network constructor. -/
inductive ModelType where
  | LIF : ModelType
  | SFA : ModelType
  | SOC : ModelType
deriving DecidableEq

/-- The two families of derivative/current functions that the constructor can
wire (self.model, self.synaptic_current, self.input_current). -/
inductive DerivFam where
  | LIF : DerivFam
  | SFA : DerivFam
deriving DecidableEq

/-- Constructor wiring of NetworkClass.py lines 97-105: the SFA model string
wires the SFA functions, and both LIF and SOC wire the LIF functions. -/
def wiredModel : ModelType → DerivFam
  | ModelType.SFA => DerivFam.SFA
  | ModelType.LIF => DerivFam.LIF
  | ModelType.SOC => DerivFam.LIF

/-- Immutable configuration of a Network (set in __init__ and never written
afterwards).  ref and tau_psc are indexed by the neuron type as a Bool
(false = inhibitory = 0, true = excitatory = 1), matching the integer
indexing ref[self.type_array] of the source.  inh j models membership of
neuron j in self.inh_idx; V_syn models the reversal-potential dictionary
keyed by (presynaptic type, postsynaptic type). -/
structure Network where
  model_type : ModelType
  neuron_num : ℕ
  input_num : ℕ
  clusters : ℕ
  keep_data : Bool
  Vth : ℚ
  Vr : ℚ
  Vreset : ℚ
  R : ℚ
  tau : ℚ
  dt : ℚ
  ref : Bool → ℚ
  tau_psc : Bool → ℚ
  inh : ℕ → Bool
  V_syn : Bool → Bool → ℚ
  Vk : ℚ
  gk : ℚ
  alpha : ℚ
  tauN : ℚ
  J : ℚ
  tauRise : ℚ
  tauDec : ℚ

/-- Embedding of __init__ (lines 68-127) for the fields the claims touch.
The constructor argument Vreset is a drop amount: the stored reset potential
is Vth - Vreset (line 70 of the source). -/
def mkNetwork (model : ModelType) (neuron_num input_num clusters : ℕ)
    (keep_data : Bool) (Vreset Vth Vr R tau dt : ℚ) (ref tau_psc : Bool → ℚ)
    (inh : ℕ → Bool) (V_syn : Bool → Bool → ℚ)
    (Vk gk alpha tauN J tauRise tauDec : ℚ) : Network :=
  { model_type := model
    neuron_num := neuron_num
    input_num := input_num
    clusters := clusters
    keep_data := keep_data
    Vth := Vth
    Vr := Vr
    Vreset := Vth - Vreset
    R := R
    tau := tau
    dt := dt
    ref := ref
    tau_psc := tau_psc
    inh := inh
    V_syn := V_syn
    Vk := Vk
    gk := gk
    alpha := alpha
    tauN := tauN
    J := J
    tauRise := tauRise
    tauDec := tauDec }

/-- Type of neuron j (line 111-112: ones with inh_idx zeroed), as a Bool:
true = excitatory (1), false = inhibitory (0). -/
def Network.ntype (net : Network) (j : ℕ) : Bool := !(net.inh j)

/-- Mutable simulation state: every attribute of the Python object written by
reset_history or during run_model that some modelled claim reads.  conn and
in_conn are self.connections and self.input_connections: they are kept in
the mutable state precisely so that their immutability under run_model is a
provable statement rather than a modelling artifact. -/
structure NetState where
  t : ℚ
  spikes : ℕ → Bool
  spikes_t : ℕ → ℚ
  Vs : ℕ → ℚ
  Is : ℕ → ℚ
  EPSC : ℕ → ℚ
  n : ℕ → ℚ
  input_t : ℕ → ℚ
  conn : ℕ → ℕ → ℚ
  in_conn : ℕ → ℕ → ℚ
  Vseq : ℕ → ℕ → ℚ
  spikes_seq : ℕ → ℕ → ℚ
  EPSC_seq : ℕ → ℕ → ℚ

/-- Embedding of reset_history (lines 131-154) restricted to the modelled
fields.  Note what is NOT reset: the clock t, the per-input-channel last
activation times input_t (set to -1 only in __init__, line 84), the
connectivity matrices, and the history buffers (reallocated by run_model
itself when keep_data is set). -/
def reset_history (net : Network) (st : NetState) : NetState :=
  { st with
    spikes := fun _ => false
    spikes_t := fun _ => -1
    Vs := fun _ => net.Vr
    Is := fun _ => 0
    EPSC := fun _ => 0
    n := fun _ => 0 }

/-- np.heaviside with a given value at 0. -/
def np_heaviside (x h0 : ℚ) : ℚ :=
  if x < 0 then 0 else if x = 0 then h0 else 1

/-- synaptic_current_LIF (lines 164-173): per-neuron exponential kernel of the
time since that neuron's own last spike, with the decay constant of the
neuron's own type, masked to 0 for neurons that have never spiked
(spikes_t < 0). -/
def synaptic_current_LIF (net : Network) (exp : ℚ → ℚ) (t : ℚ)
    (spikes_t : ℕ → ℚ) : ℕ → ℚ := fun j =>
  if spikes_t j < 0 then 0
  else exp (-(t - spikes_t j) / net.tau_psc (net.ntype j)) *
    np_heaviside (t - spikes_t j) 1

/-- input_current_LIF (lines 175-184): same exponential kernel keyed off each
input channel's last activation time, with the shared decay constant
tau_psc[0] (the inhibitory entry of the pair). -/
def input_current_LIF (net : Network) (exp : ℚ → ℚ) (t : ℚ)
    (input_t : ℕ → ℚ) : ℕ → ℚ := fun c =>
  if input_t c < 0 then 0
  else exp (-(t - input_t c) / net.tau_psc false) * np_heaviside (t - input_t c) 1

/-- synaptic_current_SFA (lines 207-215): double-exponential kernel, masked to
0 for neurons that have never spiked. -/
def synaptic_current_SFA (net : Network) (exp : ℚ → ℚ) (t : ℚ)
    (spikes_t : ℕ → ℚ) : ℕ → ℚ := fun j =>
  if spikes_t j < 0 then 0
  else net.J * (exp (-(t - spikes_t j) / net.tauDec) - exp (-(t - spikes_t j) / net.tauRise))

/-- input_current_SFA (lines 217-226). -/
def input_current_SFA (net : Network) (exp : ℚ → ℚ) (t : ℚ)
    (input_t : ℕ → ℚ) : ℕ → ℚ := fun c =>
  if input_t c < 0 then 0
  else net.J * (exp (-(t - input_t c) / net.tauDec) - exp (-(t - input_t c) / net.tauRise))

/-- self.synaptic_current as wired by the constructor. -/
def synaptic_current (net : Network) (exp : ℚ → ℚ) (t : ℚ)
    (spikes_t : ℕ → ℚ) : ℕ → ℚ :=
  match wiredModel net.model_type with
  | DerivFam.LIF => synaptic_current_LIF net exp t spikes_t
  | DerivFam.SFA => synaptic_current_SFA net exp t spikes_t

/-- self.input_current as wired by the constructor. -/
def input_current (net : Network) (exp : ℚ → ℚ) (t : ℚ)
    (input_t : ℕ → ℚ) : ℕ → ℚ :=
  match wiredModel net.model_type with
  | DerivFam.LIF => input_current_LIF net exp t input_t
  | DerivFam.SFA => input_current_SFA net exp t input_t

/-- K_frac (lines 186-192): explicit-Euler update of the open-conductance
fraction n.  The gate of the source is the conjunction
(t - spikes_t <= 1) and (spikes_t > 0). -/
def K_frac (net : Network) (t : ℚ) (spikes_t n : ℕ → ℚ) : ℕ → ℚ := fun j =>
  n j - net.dt * ((n j / net.tauN) -
    net.alpha * (1 - n j) * (if t - spikes_t j ≤ 1 ∧ 0 < spikes_t j then 1 else 0))

/-- n after the per-step call of self.model(): K_frac runs exactly when the
wired model is SFA (line 199); the LIF derivative does not touch n. -/
def nfracOf (net : Network) (t : ℚ) (spikes_t n : ℕ → ℚ) : ℕ → ℚ :=
  match wiredModel net.model_type with
  | DerivFam.SFA => K_frac net t spikes_t n
  | DerivFam.LIF => n

/-- LIF derivative (lines 156-161), written per neuron. -/
def LIF_deriv (net : Network) (Vs Is : ℕ → ℚ) : ℕ → ℚ := fun j =>
  (net.Vr - Vs j + Is j * net.R) / net.tau

/-- SFA derivative (lines 194-203) given the already-updated n; the adaptation
current Ia = gk * n * (Vs - Vk) is inlined. -/
def SFA_deriv (net : Network) (nfrac Vs Is : ℕ → ℚ) : ℕ → ℚ := fun j =>
  (net.Vr - Vs j + (Is j - net.gk * nfrac j * (Vs j - net.Vk)) * net.R) / net.tau

/-- The derivative returned by self.model() at a step. -/
def derivOf (net : Network) (t : ℚ) (spikes_t n Vs Is : ℕ → ℚ) : ℕ → ℚ :=
  match wiredModel net.model_type with
  | DerivFam.LIF => LIF_deriv net Vs Is
  | DerivFam.SFA => SFA_deriv net (nfracOf net t spikes_t n) Vs Is

/-- The LIF active set (lines 253-257): a neuron is active iff its refractory
period has elapsed (t - spikes_t > ref[type]) or it has never spiked
(spikes_t == -1). -/
def lifActive (net : Network) (t : ℚ) (spikes_t : ℕ → ℚ) : ℕ → Bool := fun j =>
  decide (net.ref (net.ntype j) < t - spikes_t j) || decide (spikes_t j = -1)

/-- The local variable active_neurons of run_model (lines 253-261): assigned
for the LIF branch (refractory gating) and the SFA branch (all neurons,
np.arange); for any other model_type it is never bound and the voltage
update raises NameError, modelled as none. -/
def activeNeurons (net : Network) (t : ℚ) (spikes_t : ℕ → ℚ) :
    Option (ℕ → Bool) :=
  match net.model_type with
  | ModelType.LIF => some (lifActive net t spikes_t)
  | ModelType.SFA => some (fun _ => true)
  | ModelType.SOC => none

/-- Voltage update of line 273: only active neurons integrate. -/
def integrateVs (net : Network) (act : ℕ → Bool) (dV Vs : ℕ → ℚ) : ℕ → ℚ :=
  fun j => if act j then Vs j + net.dt * dV j else Vs j

/-- The potential vector after line 273 of a step. -/
def vs1Of (net : Network) (t : ℚ) (act : ℕ → Bool) (st : NetState) : ℕ → ℚ :=
  integrateVs net act (derivOf net t st.spikes_t st.n st.Vs st.Is) st.Vs

/-- Spike detection of line 275: strict comparison with the threshold. -/
def spikes1Of (net : Network) (t : ℚ) (act : ℕ → Bool) (st : NetState) :
    ℕ → Bool := fun j => decide (net.Vth < vs1Of net t act st j)

/-- Last-spike times after line 278. -/
def spikesT1Of (net : Network) (t : ℚ) (act : ℕ → Bool) (st : NetState) :
    ℕ → ℚ := fun j => if spikes1Of net t act st j then t else st.spikes_t j

/-- Potentials after line 280: spiking neurons are forced to the transient
value 0 (before the EPSC computation and before the permanent reset). -/
def vs2Of (net : Network) (t : ℚ) (act : ℕ → Bool) (st : NetState) : ℕ → ℚ :=
  fun j => if spikes1Of net t act st j then 0 else vs1Of net t act st j

/-- EPSC computation of lines 281-285: plain matrix product for non-SFA
models; for SFA an additional conductance-style term built from the nonzero
mask of the connection matrix and the (already zeroed) potentials is
subtracted.  The mask is self.connections_bool, cached at construction from
self.connections; since the matrix is never mutated it is computed here
directly from the state's matrix. -/
def epscOf (net : Network) (exp : ℚ → ℚ) (t : ℚ) (act : ℕ → Bool)
    (st : NetState) : ℕ → ℚ :=
  match net.model_type with
  | ModelType.SFA => fun k =>
      (Finset.range net.neuron_num).sum
        (fun j => st.conn k j * synaptic_current net exp t (spikesT1Of net t act st) j) -
      (Finset.range net.neuron_num).sum
        (fun j => (if st.conn k j ≠ 0 then (1 : ℚ) else 0) *
          synaptic_current net exp t (spikesT1Of net t act st) j) *
        vs2Of net t act st k
  | _ => fun k =>
      (Finset.range net.neuron_num).sum
        (fun j => st.conn k j * synaptic_current net exp t (spikesT1Of net t act st) j)

/-- History-column write of lines 287-292 (only when keep_data is set). -/
def writeCol (keep : Bool) (i : ℕ) (col : ℕ → ℚ) (hist : ℕ → ℕ → ℚ) :
    ℕ → ℕ → ℚ :=
  if keep then fun j c => if c = i then col j else hist j c else hist

/-- The numpy elementwise sum of line 296 between the external-current row and
the EPSC vector (length neuron_num): defined when the lengths agree or the
row is a broadcastable singleton; any other combination raises, modelled as
none.  (The symmetric broadcast against a 1-neuron network is not modelled;
no claim exercises it.) -/
def numpyAddRow (r : List ℚ) (nn : ℕ) (v : ℕ → ℚ) : Option (ℕ → ℚ) :=
  if r.length = nn then some (fun j => r.getD j 0 + v j)
  else if r.length = 1 then some (fun j => r.getD 0 0 + v j)
  else none

/-- Core of one loop iteration of run_model (lines 271-296), after the active
set and the external input have been resolved: integrate, detect spikes,
record last-spike times, zero spiking potentials, compute EPSC, snapshot
history at column i, apply the permanent reset Vreset, and form the driving
current of the next step.  mkIs performs the (possibly failing) numpy sum
I_cur + EPSC of line 296. -/
def stepCore (net : Network) (exp : ℚ → ℚ) (i : ℕ) (t : ℚ) (act : ℕ → Bool)
    (input_t' : ℕ → ℚ) (mkIs : (ℕ → ℚ) → Option (ℕ → ℚ)) (st : NetState) :
    Option NetState :=
  (mkIs (epscOf net exp t act st)).map (fun Is' =>
    { st with
      t := t
      spikes := spikes1Of net t act st
      spikes_t := spikesT1Of net t act st
      n := nfracOf net t st.spikes_t st.n
      Vs := fun j => if spikes1Of net t act st j then net.Vreset
        else vs2Of net t act st j
      EPSC := epscOf net exp t act st
      Is := Is'
      input_t := input_t'
      Vseq := writeCol net.keep_data i (vs2Of net t act st) st.Vseq
      spikes_seq := writeCol net.keep_data i
        (fun j => if spikes1Of net t act st j then 1 else 0) st.spikes_seq
      EPSC_seq := writeCol net.keep_data i (epscOf net exp t act st) st.EPSC_seq })

/-- The indices of the nonzero entries of an external input row
(np.where(I[i-1])). -/
def nonzeroIdx (r : List ℚ) : List ℕ :=
  (List.range r.length).filter (fun c => decide (r.getD c 0 ≠ 0))

/-- One loop iteration of run_model (lines 250-296) at step index i (starting
from 1) with current time t_cur = i * dt, consuming row r of the injected
array.  For input_type = 0 the row is the external current itself (summed
against EPSC at line 296 under numpy broadcast rules); for a nonzero
input_type the row's nonzero channels have their activation time set to
t_cur (an out-of-range channel index raises, modelled as none) and the
external current is the conductance-style input coupling of lines 266-267,
evaluated at the pre-integration potentials. -/
def step (net : Network) (exp : ℚ → ℚ) (input_type : ℕ) (i : ℕ) (r : List ℚ)
    (st : NetState) : Option NetState :=
  (activeNeurons net ((i : ℚ) * net.dt) st.spikes_t).bind (fun act =>
    if input_type ≠ 0 then
      if (nonzeroIdx r).all (fun c => decide (c < net.input_num)) then
        stepCore net exp i ((i : ℚ) * net.dt) act
          (fun c => if c ∈ nonzeroIdx r then (i : ℚ) * net.dt else st.input_t c)
          (fun EPSC' => some (fun j =>
            ((Finset.range net.input_num).sum (fun c => st.in_conn j c *
              input_current net exp ((i : ℚ) * net.dt)
                (fun c' => if c' ∈ nonzeroIdx r then (i : ℚ) * net.dt else st.input_t c') c) -
             (Finset.range net.input_num).sum (fun c =>
              (if st.in_conn j c ≠ 0 then (1 : ℚ) else 0) *
              input_current net exp ((i : ℚ) * net.dt)
                (fun c' => if c' ∈ nonzeroIdx r then (i : ℚ) * net.dt else st.input_t c') c) *
              st.Vs j) + EPSC' j))
          st
      else none
    else
      stepCore net exp i ((i : ℚ) * net.dt) act st.input_t
        (numpyAddRow r net.neuron_num) st)

/-- The simulation loop of run_model: consume the rows of the injected array
in order, step index i counting up from 1 (the enumerate of line 250;
np.linspace(dt, t*dt, t) makes the i-th time exactly i*dt). -/
def runAux (net : Network) (exp : ℚ → ℚ) (input_type : ℕ) :
    ℕ → List (List ℚ) → NetState → Option NetState
  | _, [], st => some st
  | i, r :: rest, st =>
    match step net exp input_type i r st with
    | none => none
    | some st' => runAux net exp input_type (i + 1) rest st'

/-- run_model (lines 229-296): reset the per-run state, allocate the history
buffers (column 0 of Vseq holds the freshly reset potentials, the other
buffers start at zero) when keep_data is set, then run the loop from step
index 1. -/
def run_model (net : Network) (exp : ℚ → ℚ) (I : List (List ℚ))
    (input_type : ℕ) (st : NetState) : Option NetState :=
  runAux net exp input_type 1 I
    (if net.keep_data then
      { reset_history net st with
        Vseq := fun j c => if c = 0 then (reset_history net st).Vs j else 0
        spikes_seq := fun _ _ => 0
        EPSC_seq := fun _ _ => 0 }
    else reset_history net st)

/-- Cluster index of neuron i (line 337): the Python floor-division of the
int i by the float neuron_num / clusters, taken exactly over ℚ. -/
def cluster_of (net : Network) (i : ℕ) : ℤ :=
  ⌊(i : ℚ) / ((net.neuron_num : ℚ) / (net.clusters : ℚ))⌋

/-- generate_connections (lines 308-359).  The draw of np.random.rand() against
the distance-decayed connection probability for a candidate edge is
abstracted as a Bernoulli oracle: draw_in i j decides the input edge from
channel i to neuron j, draw i j the recurrent edge from neuron i to neuron
j.  The only probability that is not abstracted is the structurally
impossible one: across clusters with i < j the source sets connect_pr = 0,
so rand < connect_pr never fires and the edge is deterministically absent.
Input edges are only attempted for neurons of the first partition
(range(neuron_num // clusters)) and carry the weight
V_syn[(not isin(j, inh_idx), 1)] of line 329; recurrent edges carry
V_syn[(type i, type j)] of line 357; the diagonal is skipped (line 333).
Result: (connections, input_connections). -/
def generate_connections (net : Network) (draw_in draw : ℕ → ℕ → Bool) :
    (ℕ → ℕ → ℚ) × (ℕ → ℕ → ℚ) :=
  (fun i j =>
    if i < net.neuron_num ∧ j < net.neuron_num ∧ i ≠ j then
      (if 1 < net.clusters ∧ cluster_of net i ≠ cluster_of net j then
        (if j < i ∧ draw i j then net.V_syn (net.ntype i) (net.ntype j) else 0)
      else
        (if draw i j then net.V_syn (net.ntype i) (net.ntype j) else 0))
    else 0,
  fun j i =>
    if j < net.neuron_num / net.clusters ∧ i < net.input_num ∧ draw_in i j then
      net.V_syn (net.ntype j) true
    else 0)

/-- Per-run state produced at the end of __init__: connectivity matrices from
generate_connections, input_t initialized to -1 (line 84), the clock at 0
(line 74), and the remaining fields as left by reset_history (line 129).
History buffers start at zero (they are first allocated by run_model). -/
def initState (net : Network) (draw_in draw : ℕ → ℕ → Bool) : NetState :=
  reset_history net
    { t := 0
      spikes := fun _ => false
      spikes_t := fun _ => -1
      Vs := fun _ => net.Vr
      Is := fun _ => 0
      EPSC := fun _ => 0
      n := fun _ => 0
      input_t := fun _ => -1
      conn := (generate_connections net draw_in draw).1
      in_conn := (generate_connections net draw_in draw).2
      Vseq := fun _ _ => 0
      spikes_seq := fun _ _ => 0
      EPSC_seq := fun _ _ => 0 }

/-
LFP section (lines 298-303 and 509-527).  np.sqrt, np.cos, np.arctan and
np.pi are abstracted as parameters; positions are triples of rationals.
-/

/-- get_pos (lines 298-303): np.unravel_index of a flat index into the 3-D
lattice (row-major). -/
def get_pos (dim : ℕ × ℕ × ℕ) (idx : ℕ) : ℕ × ℕ × ℕ :=
  (idx / (dim.2.1 * dim.2.2), (idx / dim.2.2) % dim.2.1, idx % dim.2.2)

/-- np.arctan2 with numpy's conventions; in particular arctan2(0, 0) = 0. -/
def np_arctan2 (atan : ℚ → ℚ) (pi : ℚ) (y x : ℚ) : ℚ :=
  if 0 < x then atan (y / x)
  else if x = 0 then (if 0 < y then pi / 2 else if y < 0 then -(pi / 2) else 0)
  else if 0 ≤ y then atan (y / x) + pi
  else atan (y / x) - pi

/-- get_r (lines 510-512): polar projection (radius, angle, 0) of a planar
point. -/
def get_r (sqrt atan : ℚ → ℚ) (pi : ℚ) (x y : ℚ) : ℚ × ℚ × ℚ :=
  (sqrt (x ^ 2 + y ^ 2), np_arctan2 atan pi y x, 0)

/-- The radicand of calc_dist (line 517): note the missing factor 2 relative
to the law of cosines a^2 + b^2 - 2*a*b*cos(theta). -/
def calc_dist_arg (cos : ℚ → ℚ) (r1 r2 : ℚ × ℚ × ℚ) : ℚ :=
  r1.1 ^ 2 + r2.1 ^ 2 - r1.1 * r2.1 * cos (r1.2.1 - r2.2.1)

/-- calc_dist (lines 514-517) as written in the source. -/
def calc_dist (sqrt cos : ℚ → ℚ) (r1 r2 : ℚ × ℚ × ℚ) : ℚ :=
  sqrt (calc_dist_arg cos r1 r2)

/-- Modelled from the spec: the distance between polar points (a, alpha) and
(b, beta) by the actual law of cosines, sqrt (a^2 + b^2 - 2ab cos(alpha -
beta)), which the spec (and the source's own comment at line 516) says
calc_dist computes. -/
def law_of_cosines_dist (sqrt cos : ℚ → ℚ) (a b theta : ℚ) : ℚ :=
  sqrt (a ^ 2 + b ^ 2 - 2 * a * b * cos theta)

/-- The guard np.any(r != r0) of line 524: elementwise inequality somewhere. -/
def np_any_ne (r r0 : ℚ × ℚ × ℚ) : Bool :=
  decide (r.1 ≠ r0.1) || decide (r.2.1 ≠ r0.2.1) || decide (r.2.2 ≠ r0.2.2)

/-- get_phi (lines 519-527): sum current[t] / (dist * 4 pi sigma) over the
channels whose polar triple differs from the observation triple r somewhere
(the only guard the source has), then divide by (channel count - 1).
Division is the total rational division (the source propagates the float
inf/nan instead; no claim is settled through the value of a zero-divisor
term, only through calc_dist itself). -/
def get_phi (sqrt cos atan : ℚ → ℚ) (pi : ℚ) (SPC : List (List ℚ))
    (r : ℚ × ℚ × ℚ) (t : ℕ) (sigma : ℚ) (dim : ℕ × ℕ × ℕ) : ℚ :=
  (List.range SPC.length).foldl
    (fun phi i =>
      let p := get_pos dim i
      let r0 := get_r sqrt atan pi (p.2.1 : ℚ) (p.2.2 : ℚ)
      if np_any_ne r r0 then
        phi + ((SPC.getD i []).getD t 0) / (calc_dist sqrt cos r r0 * (4 * pi * sigma))
      else phi) 0
    / ((SPC.length : ℚ) - 1)

/-
Helper lemmas and concrete instances used by the verification theorems.
-/

/-- Inversion of a successful step: the active set was resolved, the
connectivity matrices are untouched, and every updated field has its
defining value. -/
theorem step_some_inv {net : Network} {exp : ℚ → ℚ} {ity i : ℕ} {r : List ℚ}
    {st st' : NetState} (h : step net exp ity i r st = some st') :
    ∃ act, activeNeurons net ((i : ℚ) * net.dt) st.spikes_t = some act ∧
      st'.conn = st.conn ∧ st'.in_conn = st.in_conn ∧
      st'.t = (i : ℚ) * net.dt ∧
      st'.spikes = spikes1Of net ((i : ℚ) * net.dt) act st ∧
      st'.spikes_t = spikesT1Of net ((i : ℚ) * net.dt) act st ∧
      st'.n = nfracOf net ((i : ℚ) * net.dt) st.spikes_t st.n ∧
      st'.Vs = (fun j => if spikes1Of net ((i : ℚ) * net.dt) act st j then net.Vreset
        else vs2Of net ((i : ℚ) * net.dt) act st j) ∧
      st'.EPSC = epscOf net exp ((i : ℚ) * net.dt) act st ∧
      st'.Vseq = writeCol net.keep_data i (vs2Of net ((i : ℚ) * net.dt) act st) st.Vseq ∧
      st'.spikes_seq = writeCol net.keep_data i
        (fun j => if spikes1Of net ((i : ℚ) * net.dt) act st j then 1 else 0) st.spikes_seq ∧
      st'.EPSC_seq = writeCol net.keep_data i
        (epscOf net exp ((i : ℚ) * net.dt) act st) st.EPSC_seq := by
  unfold step at h
  cases hact : activeNeurons net ((i : ℚ) * net.dt) st.spikes_t with
  | none => rw [hact] at h; exact absurd h (by simp)
  | some act =>
    rw [hact] at h
    simp only [Option.some_bind] at h
    refine ⟨act, rfl, ?_⟩
    have key : ∀ (it' : ℕ → ℚ) (mkIs : (ℕ → ℚ) → Option (ℕ → ℚ)),
        stepCore net exp i ((i : ℚ) * net.dt) act it' mkIs st = some st' →
        st'.conn = st.conn ∧ st'.in_conn = st.in_conn ∧
        st'.t = (i : ℚ) * net.dt ∧
        st'.spikes = spikes1Of net ((i : ℚ) * net.dt) act st ∧
        st'.spikes_t = spikesT1Of net ((i : ℚ) * net.dt) act st ∧
        st'.n = nfracOf net ((i : ℚ) * net.dt) st.spikes_t st.n ∧
        st'.Vs = (fun j => if spikes1Of net ((i : ℚ) * net.dt) act st j then net.Vreset
          else vs2Of net ((i : ℚ) * net.dt) act st j) ∧
        st'.EPSC = epscOf net exp ((i : ℚ) * net.dt) act st ∧
        st'.Vseq = writeCol net.keep_data i (vs2Of net ((i : ℚ) * net.dt) act st) st.Vseq ∧
        st'.spikes_seq = writeCol net.keep_data i
          (fun j => if spikes1Of net ((i : ℚ) * net.dt) act st j then 1 else 0) st.spikes_seq ∧
        st'.EPSC_seq = writeCol net.keep_data i
          (epscOf net exp ((i : ℚ) * net.dt) act st) st.EPSC_seq := by
      intro it' mkIs hc
      unfold stepCore at hc
      cases hmk : mkIs (epscOf net exp ((i : ℚ) * net.dt) act st) with
      | none => rw [hmk] at hc; exact absurd hc (by simp)
      | some Is' =>
        rw [hmk] at hc
        simp only [Option.map_some', Option.some.injEq] at hc
        subst hc
        exact ⟨rfl, rfl, rfl, rfl, rfl, rfl, rfl, rfl, rfl, rfl, rfl⟩
    by_cases hty : ity ≠ 0
    · rw [if_pos hty] at h
      by_cases hall : (nonzeroIdx r).all (fun c => decide (c < net.input_num)) = true
      · rw [if_pos hall] at h
        exact key _ _ h
      · rw [if_neg hall] at h; exact absurd h (by simp)
    · rw [if_neg hty] at h
      exact key _ _ h

/-- runAux never touches the connectivity matrices. -/
theorem runAux_conn {net : Network} {exp : ℚ → ℚ} {ity : ℕ} :
    ∀ (I : List (List ℚ)) (i : ℕ) (st st' : NetState),
      runAux net exp ity i I st = some st' →
      st'.conn = st.conn ∧ st'.in_conn = st.in_conn := by
  intro I
  induction I with
  | nil =>
    intro i st st' h
    unfold runAux at h
    simp only [Option.some.injEq] at h
    subst h; exact ⟨rfl, rfl⟩
  | cons r rest ih =>
    intro i st st' h
    unfold runAux at h
    cases hs : step net exp ity i r st with
    | none => rw [hs] at h; exact absurd h (by simp)
    | some st1 =>
      rw [hs] at h
      obtain ⟨hc, hic⟩ := ih (i + 1) st1 st' h
      obtain ⟨_, _, hc1, hic1, _⟩ := step_some_inv hs
      exact ⟨hc.trans hc1, hic.trans hic1⟩

/-- An abstract stand-in for np.exp in witnesses (the claims never depend on
the exponential's values). -/
def expOne : ℚ → ℚ := fun _ => 1

/-- The constructor's default refractory pair (I, E) = (2, 3). -/
def refDefault : Bool → ℚ := fun b => if b then 3 else 2

/-- The constructor's default synaptic-decay pair (I, E) = (6, 3). -/
def tauPscDefault : Bool → ℚ := fun b => if b then 3 else 6

/-- The constructor's default reversal-potential table
{(1,1): 5, (1,0): 25, (0,1): -20, (0,0): -20}. -/
def VsynDefault : Bool → Bool → ℚ := fun a b =>
  if a then (if b then 5 else 25) else -20

/-- A one-neuron, one-input LIF network with the constructor's defaults. -/
def net1 : Network :=
  mkNetwork ModelType.LIF 1 1 1 true 5 15 0 1 30 (1/100)
    refDefault tauPscDefault (fun _ => false) VsynDefault
    (-303/5) 10 (1/50) 230 (123/2000) 1 (13/2)

/-- The same network constructed with model string SOC. -/
def socNet : Network :=
  mkNetwork ModelType.SOC 1 1 1 true 5 15 0 1 30 (1/100)
    refDefault tauPscDefault (fun _ => false) VsynDefault
    (-303/5) 10 (1/50) 230 (123/2000) 1 (13/2)

/-- A one-neuron LIF network whose only neuron is inhibitory (refractory
period refDefault false = 2). -/
def net2 : Network :=
  mkNetwork ModelType.LIF 1 1 1 true 5 15 0 1 30 (1/100)
    refDefault tauPscDefault (fun _ => true) VsynDefault
    (-303/5) 10 (1/50) 230 (123/2000) 1 (13/2)

/-- A one-neuron LIF network with unit time step and membrane constant, used
to exhibit a spike in a single step. -/
def net3 : Network :=
  mkNetwork ModelType.LIF 1 1 1 true 5 15 0 1 1 1
    refDefault tauPscDefault (fun _ => false) VsynDefault
    (-303/5) 10 (1/50) 230 (123/2000) 1 (13/2)

/-- A one-neuron SFA network with unit time step, tauN = 2 and alpha = 1. -/
def net4 : Network :=
  mkNetwork ModelType.SFA 1 1 1 true 5 15 0 1 1 1
    refDefault tauPscDefault (fun _ => false) VsynDefault
    (-303/5) 10 1 2 (123/2000) 1 (13/2)

/-- A quiescent state: everything zero, no spikes ever, empty topology. -/
def st1 : NetState :=
  { t := 0
    spikes := fun _ => false
    spikes_t := fun _ => -1
    Vs := fun _ => 0
    Is := fun _ => 0
    EPSC := fun _ => 0
    n := fun _ => 0
    input_t := fun _ => -1
    conn := fun _ _ => 0
    in_conn := fun _ _ => 0
    Vseq := fun _ _ => 0
    spikes_seq := fun _ _ => 0
    EPSC_seq := fun _ _ => 0 }

/-- st1 with a stale input activation time. -/
def st7 : NetState := { st1 with input_t := fun _ => 7 }

/-- st1 with a large injected standing current. -/
def st3 : NetState := { st1 with Is := fun _ => 100 }

/-- st1 with a unit adaptation fraction. -/
def st4 : NetState := { st1 with n := fun _ => 1 }

/-
Claim theorems.
-/

/-- C10: constructing a Network with model SOC succeeds and wires the LIF
derivative and current functions (the constructor treats LIF and SOC
identically at lines 102-105), but run_model on such a network with a
nonempty injected array fails on the first simulation step, because the
active-set branches of lines 253-261 cover only the LIF and SFA model
strings and the local active-neuron variable is never bound for SOC. -/
theorem C10_soc_run_fails (net : Network)
    (hM : net.model_type = ModelType.SOC) :
    wiredModel net.model_type = DerivFam.LIF ∧
    (∀ exp t sp, synaptic_current net exp t sp = synaptic_current_LIF net exp t sp) ∧
    (∀ exp t it', input_current net exp t it' = input_current_LIF net exp t it') ∧
    (∀ exp input_type r rest st,
      run_model net exp (r :: rest) input_type st = none) := by
  refine ⟨by rw [hM]; rfl, ?_, ?_, ?_⟩
  · intro exp t sp
    unfold synaptic_current
    rw [hM]
    rfl
  · intro exp t it'
    unfold input_current
    rw [hM]
    rfl
  · intro exp input_type r rest st
    simp [run_model, runAux, step, activeNeurons, hM]

/-- Witness for C10 at a concrete SOC network, concrete one-row input and
concrete start state. -/
theorem C10_soc_run_fails_witness :
    wiredModel socNet.model_type = DerivFam.LIF ∧
    run_model socNet expOne [[0]] 0 st1 = none :=
  ⟨(C10_soc_run_fails socNet rfl).1,
   (C10_soc_run_fails socNet rfl).2.2.2 expOne 0 [0] [] st1⟩

/-- C2: in the LIF model the active set of a step at time t is exactly the
lifActive predicate; a neuron whose last spike time s is a genuine spike
time (s different from the -1 sentinel) with 0 < t - s <= ref[type] is
excluded (and its potential is not integrated that step), it is active at
any step with t - s > ref[type], and a neuron that has never spiked
(sentinel -1) is always active. -/
theorem C2_refractory_exclusion (net : Network)
    (hM : net.model_type = ModelType.LIF) (t : ℚ) (sp : ℕ → ℚ) (j : ℕ) :
    activeNeurons net t sp = some (lifActive net t sp) ∧
    (sp j ≠ -1 → 0 < t - sp j → t - sp j ≤ net.ref (net.ntype j) →
      lifActive net t sp j = false ∧
      ∀ dV Vs, integrateVs net (lifActive net t sp) dV Vs j = Vs j) ∧
    (net.ref (net.ntype j) < t - sp j → lifActive net t sp j = true) ∧
    (sp j = -1 → lifActive net t sp j = true) := by
  refine ⟨by simp [activeNeurons, hM], ?_, ?_, ?_⟩
  · intro h1 _ h3
    have hact : lifActive net t sp j = false := by
      simp [lifActive, h1, not_lt.mpr h3]
    exact ⟨hact, fun dV Vs => by simp [integrateVs, hact]⟩
  · intro h; simp [lifActive, h]
  · intro h; simp [lifActive, h]

/-- Witness for C2: on net2 (inhibitory neuron, refractory period 2), a neuron
that spiked at time 2 is inactive at time 3, active again at time 5, and a
never-spiked neuron is active. -/
theorem C2_refractory_exclusion_witness :
    lifActive net2 3 (fun _ => 2) 0 = false ∧
    lifActive net2 5 (fun _ => 2) 0 = true ∧
    lifActive net2 3 (fun _ => -1) 0 = true :=
  ⟨((C2_refractory_exclusion net2 rfl 3 (fun _ => 2) 0).2.1 (by norm_num)
      (by norm_num)
      (by norm_num [net2, mkNetwork, Network.ntype, refDefault])).1,
   (C2_refractory_exclusion net2 rfl 5 (fun _ => 2) 0).2.2.1
      (by norm_num [net2, mkNetwork, Network.ntype, refDefault]),
   (C2_refractory_exclusion net2 rfl 3 (fun _ => -1) 0).2.2.2 rfl⟩

/-- C5 counterexample: on net2 (whose single neuron is inhibitory, i.e.
type 0) with an always-firing Bernoulli oracle, the generated input weight
to neuron 0 is V_syn (type 0, excitatory) = -20 (the key the source builds
at line 329), not the claim's V_syn (excitatory, type 0) = 25. -/
theorem C5_input_weight_counterexample :
    (generate_connections net2 (fun _ _ => true) (fun _ _ => true)).2 0 0 = -20 ∧
    net2.V_syn true (net2.ntype 0) = 25 ∧
    ((-20 : ℚ) ≠ 25) ∧ ((-20 : ℚ) ≠ 0) := by
  refine ⟨?_, ?_, by norm_num, by norm_num⟩
  · simp [generate_connections, net2, mkNetwork, Network.ntype, VsynDefault]
  · simp [net2, mkNetwork, Network.ntype, VsynDefault]

/-- C5 amended: whenever an input edge to neuron j is created (nonzero
weight), its weight is the reversal-potential table entry keyed by
(type of the TARGET neuron j, excitatory), i.e. V_syn[(type(j), 1)]; for an
inhibitory target this is the table's (inhibitory, excitatory) entry, not
the (excitatory, inhibitory) one. -/
theorem C5_input_weight_amended (net : Network) (draw_in draw : ℕ → ℕ → Bool)
    (j i : ℕ) (h : (generate_connections net draw_in draw).2 j i ≠ 0) :
    (generate_connections net draw_in draw).2 j i =
      net.V_syn (net.ntype j) true := by
  simp only [generate_connections] at h ⊢
  by_cases hc : j < net.neuron_num / net.clusters ∧ i < net.input_num ∧
      draw_in i j = true
  · rw [if_pos hc]
  · rw [if_neg hc] at h
    exact absurd rfl h

/-- Witness for C5's amended statement at a concrete network and oracle. -/
theorem C5_input_weight_amended_witness :
    (generate_connections net2 (fun _ _ => true) (fun _ _ => true)).2 0 0 =
      net2.V_syn (net2.ntype 0) true :=
  C5_input_weight_amended net2 (fun _ _ => true) (fun _ _ => true) 0 0
    (by simp [generate_connections, net2, mkNetwork, Network.ntype, VsynDefault])

/-- C6: after generate_connections, the diagonal of the recurrent matrix is
zero; every entry of either matrix is zero or the reversal-potential table
entry for the corresponding type pair; entries outside the configured
neuron/input dimensions are zero; and run_model never changes any entry of
either matrix. -/
theorem C6_topology_invariants (net : Network) (draw_in draw : ℕ → ℕ → Bool) :
    (∀ i, (generate_connections net draw_in draw).1 i i = 0) ∧
    (∀ i j, (generate_connections net draw_in draw).1 i j = 0 ∨
      (generate_connections net draw_in draw).1 i j =
        net.V_syn (net.ntype i) (net.ntype j)) ∧
    (∀ j i, (generate_connections net draw_in draw).2 j i = 0 ∨
      (generate_connections net draw_in draw).2 j i =
        net.V_syn (net.ntype j) true) ∧
    (∀ i j, net.neuron_num ≤ i ∨ net.neuron_num ≤ j →
      (generate_connections net draw_in draw).1 i j = 0) ∧
    (∀ j i, net.neuron_num ≤ j ∨ net.input_num ≤ i →
      (generate_connections net draw_in draw).2 j i = 0) ∧
    (∀ exp I ity st st', run_model net exp I ity st = some st' →
      st'.conn = st.conn ∧ st'.in_conn = st.in_conn) := by
  refine ⟨?_, ?_, ?_, ?_, ?_, ?_⟩
  · intro i
    simp [generate_connections]
  · intro i j
    simp only [generate_connections]
    split_ifs <;> simp
  · intro j i
    simp only [generate_connections]
    split_ifs <;> simp
  · intro i j h
    have hno : ¬(i < net.neuron_num ∧ j < net.neuron_num ∧ i ≠ j) := by
      rcases h with h | h
      · rintro ⟨h1, _, _⟩; omega
      · rintro ⟨_, h2, _⟩; omega
    simp only [generate_connections]
    rw [if_neg hno]
  · intro j i h
    have hdiv := Nat.div_le_self net.neuron_num net.clusters
    have hno : ¬(j < net.neuron_num / net.clusters ∧ i < net.input_num ∧
        draw_in i j = true) := by
      rcases h with h | h
      · rintro ⟨h1, _, _⟩; omega
      · rintro ⟨_, h2, _⟩; omega
    simp only [generate_connections]
    rw [if_neg hno]
  · intro exp I ity st st' h
    unfold run_model at h
    obtain ⟨hc, hic⟩ := runAux_conn I 1 _ st' h
    cases hk : net.keep_data <;> rw [hk] at hc hic <;>
      simpa [reset_history] using ⟨hc, hic⟩

/-- Witness for C6 at a concrete network, oracle and run. -/
theorem C6_topology_invariants_witness :
    (generate_connections net2 (fun _ _ => true) (fun _ _ => true)).1 0 0 = 0 ∧
    ((generate_connections net2 (fun _ _ => true) (fun _ _ => true)).1 5 0 = 0) ∧
    (∀ st', run_model net2 expOne [] 0 st1 = some st' →
      st'.conn = st1.conn ∧ st'.in_conn = st1.in_conn) :=
  ⟨(C6_topology_invariants net2 (fun _ _ => true) (fun _ _ => true)).1 0,
   (C6_topology_invariants net2 (fun _ _ => true) (fun _ _ => true)).2.2.2.1 5 0
     (Or.inl (by norm_num [net2, mkNetwork])),
   fun st' h =>
     (C6_topology_invariants net2 (fun _ _ => true) (fun _ _ => true)).2.2.2.2.2
       expOne [] 0 st1 st' h⟩

/-- C7 counterexample: a run_model call on a state whose input channel 0 has
stale activation time 7 completes a one-step zero-current run with the
activation time still 7, not the fresh -1: the per-input-channel
last-activation times are not reinitialized at run start (reset_history,
lines 131-154, never touches self.input_t, which only __init__ line 84
sets). -/
theorem C7_reset_counterexample :
    (run_model net1 expOne [[0]] 0 st7).map (fun s => s.input_t 0) = some 7 ∧
    ((7 : ℚ) ≠ -1) := by
  refine ⟨?_, by norm_num⟩
  simp [run_model, runAux, step, stepCore, activeNeurons, numpyAddRow,
    net1, st7, st1, reset_history, mkNetwork]

/-- C7 amended: at the start of every run_model call, reset_history
reinitializes the membrane potentials (to Vr), spike indicators, last-spike
times (to the -1 sentinel), currents, EPSC accumulators and adaptation
fractions, and run_model proceeds from exactly that reset state; but the
per-input-channel last-activation times input_t (and the clock t) are NOT
reinitialized and carry over from the previous run; the topology is
likewise untouched. -/
theorem C7_reset_amended (net : Network) (st : NetState) :
    (∀ j, (reset_history net st).Vs j = net.Vr) ∧
    (∀ j, (reset_history net st).spikes j = false) ∧
    (∀ j, (reset_history net st).spikes_t j = -1) ∧
    (∀ j, (reset_history net st).Is j = 0) ∧
    (∀ j, (reset_history net st).EPSC j = 0) ∧
    (∀ j, (reset_history net st).n j = 0) ∧
    (reset_history net st).input_t = st.input_t ∧
    (reset_history net st).t = st.t ∧
    (reset_history net st).conn = st.conn ∧
    (reset_history net st).in_conn = st.in_conn ∧
    (∀ exp I ity, run_model net exp I ity st =
      run_model net exp I ity (reset_history net st)) :=
  ⟨fun _ => rfl, fun _ => rfl, fun _ => rfl, fun _ => rfl, fun _ => rfl,
   fun _ => rfl, rfl, rfl, rfl, rfl, fun _ _ _ => rfl⟩

/-- C9: contrary to the claim, get_phi's only guard is the elementwise polar
triple inequality np.any(r != r0), and calc_dist does not implement the law
of cosines (the cross term is missing its factor 2, contradicting the
source's own comment at line 516).  Under the elementary facts sqrt 0 = 0,
sqrt 1 = 1 and cos 0 = 1 about the abstracted numpy functions: (a) for the
observation triple (0, 1, 0) and a channel at projected position (0, 0)
(polar triple (sqrt 0, 0, 0) = (0, 0, 0)) the guard passes while the
distance divisor calc_dist evaluates to 0, so the claim's division term
divides by a zero distance; (b) for coincident polar points at radius 1 the
law of cosines gives distance 0 while calc_dist returns 1. -/
theorem C9_lfp_distance_bug (sqrt cos atan : ℚ → ℚ) (pi : ℚ)
    (hs0 : sqrt 0 = 0) (hs1 : sqrt 1 = 1) (hc0 : cos 0 = 1) :
    (np_any_ne (0, 1, 0) (get_r sqrt atan pi 0 0) = true ∧
      calc_dist sqrt cos (0, 1, 0) (get_r sqrt atan pi 0 0) = 0) ∧
    (calc_dist sqrt cos (1, 0, 0) (1, 0, 0) = 1 ∧
      law_of_cosines_dist sqrt cos 1 1 0 = 0) := by
  have hr0 : get_r sqrt atan pi 0 0 = (0, 0, 0) := by
    simp [get_r, np_arctan2, hs0]
  refine ⟨⟨?_, ?_⟩, ?_, ?_⟩
  · rw [hr0]
    simp [np_any_ne]
  · rw [hr0]
    unfold calc_dist calc_dist_arg
    norm_num [hs0]
  · unfold calc_dist calc_dist_arg
    norm_num [hc0, hs1]
  · unfold law_of_cosines_dist
    norm_num [hc0, hs0]

/-- A concrete stand-in for np.sqrt agreeing with it at 0 and 1. -/
def sqrtW : ℚ → ℚ := fun q => if q = 1 then 1 else 0

/-- A concrete stand-in for np.cos agreeing with it at 0. -/
def cosW : ℚ → ℚ := fun _ => 1

/-- Witness for C9 at concrete model functions satisfying its hypotheses. -/
theorem C9_lfp_distance_bug_witness :
    (np_any_ne (0, 1, 0) (get_r sqrtW id 0 0 0) = true ∧
      calc_dist sqrtW cosW (0, 1, 0) (get_r sqrtW id 0 0 0) = 0) ∧
    (calc_dist sqrtW cosW (1, 0, 0) (1, 0, 0) = 1 ∧
      law_of_cosines_dist sqrtW cosW 1 1 0 = 0) :=
  C9_lfp_distance_bug sqrtW cosW id 0 (by norm_num [sqrtW])
    (by norm_num [sqrtW]) (by norm_num [cosW])

/-- A step with directly injected currents (input_type 0) and a row of the
right width always succeeds on a LIF network. -/
theorem step0_some (net : Network) (exp : ℚ → ℚ)
    (hM : net.model_type = ModelType.LIF) (i : ℕ) (r : List ℚ)
    (hr : r.length = net.neuron_num) (st : NetState) :
    step net exp 0 i r st =
      stepCore net exp i ((i : ℚ) * net.dt)
        (lifActive net ((i : ℚ) * net.dt) st.spikes_t) st.input_t
        (numpyAddRow r net.neuron_num) st ∧
    ∃ st', step net exp 0 i r st = some st' := by
  have hact : activeNeurons net ((i : ℚ) * net.dt) st.spikes_t =
      some (lifActive net ((i : ℚ) * net.dt) st.spikes_t) := by
    simp [activeNeurons, hM]
  have heq : step net exp 0 i r st =
      stepCore net exp i ((i : ℚ) * net.dt)
        (lifActive net ((i : ℚ) * net.dt) st.spikes_t) st.input_t
        (numpyAddRow r net.neuron_num) st := by
    unfold step
    rw [hact]
    simp
  refine ⟨heq, ?_⟩
  rw [heq]
  unfold stepCore numpyAddRow
  rw [if_pos hr]
  exact ⟨_, rfl⟩

/-- C1: at any step of run_model on a constructed network, every neuron
whose updated potential strictly exceeds Vth (i.e. whose spike flag is set
this step) has its last-spike time set to the current step time, the
transient value 0 recorded as its potential in history column i (the value
that fed the EPSC computation), and its stored potential at the start of
the next step equal to Vth - Vreset_config exactly, where Vreset_config is
the constructor's drop amount (line 70: self.Vreset = Vth - Vreset). -/
theorem C1_spike_reset (model : ModelType) (neuron_num input_num clusters : ℕ)
    (keep_data : Bool) (Vreset_config Vth Vr R tau dt : ℚ)
    (ref tau_psc : Bool → ℚ) (inh : ℕ → Bool) (V_syn : Bool → Bool → ℚ)
    (Vk gk alpha tauN J tauRise tauDec : ℚ) (exp : ℚ → ℚ) (ity i : ℕ)
    (r : List ℚ) (st st' : NetState) (j : ℕ)
    (h : step (mkNetwork model neuron_num input_num clusters keep_data
      Vreset_config Vth Vr R tau dt ref tau_psc inh V_syn Vk gk alpha tauN J
      tauRise tauDec) exp ity i r st = some st')
    (hj : st'.spikes j = true) :
    st'.spikes_t j = st'.t ∧
    (keep_data = true → st'.Vseq j i = 0) ∧
    st'.Vs j = Vth - Vreset_config := by
  obtain ⟨act, hact, hconn, hiconn, ht, hspk, hspt, hn, hVs, hE, hVse, hsse, hEse⟩ :=
    step_some_inv h
  rw [hspk] at hj
  refine ⟨?_, ?_, ?_⟩
  · rw [hspt, ht]
    simp [spikesT1Of, hj]
  · intro hk
    rw [hVse]
    have hkd : (mkNetwork model neuron_num input_num clusters keep_data
        Vreset_config Vth Vr R tau dt ref tau_psc inh V_syn Vk gk alpha tauN J
        tauRise tauDec).keep_data = true := by rw [mkNetwork]; exact hk
    rw [writeCol, if_pos hkd]
    simp [vs2Of, hj]
  · rw [hVs]
    simp only [hj, if_true]
    rw [mkNetwork]

/-- Witness for C1: on net3 (Vth = 15, drop 5, dt = tau = R = 1) a standing
current of 100 makes neuron 0 spike on the first step; its recorded history
potential is 0 and its stored potential is 15 - 5. -/
theorem C1_spike_reset_witness :
    ∃ st', step net3 expOne 0 1 [0] st3 = some st' ∧ st'.spikes 0 = true ∧
      st'.spikes_t 0 = st'.t ∧ st'.Vseq 0 1 = 0 ∧ st'.Vs 0 = 15 - 5 := by
  obtain ⟨heq, st', hst⟩ := step0_some net3 expOne rfl 1 [0] rfl st3
  have hj : st'.spikes 0 = true := by
    obtain ⟨act, hact, _, _, _, hspk, _⟩ := step_some_inv hst
    have hA : activeNeurons net3 (((1 : ℕ) : ℚ) * net3.dt) st3.spikes_t =
        some (lifActive net3 (((1 : ℕ) : ℚ) * net3.dt) st3.spikes_t) := by
      simp only [activeNeurons, net3, mkNetwork]
    rw [hA] at hact
    obtain rfl : lifActive net3 (((1 : ℕ) : ℚ) * net3.dt) st3.spikes_t = act := by
      simpa using hact
    rw [hspk]
    norm_num [spikes1Of, vs1Of, integrateVs, derivOf, LIF_deriv, lifActive,
      nfracOf, wiredModel, net3, mkNetwork, st3, st1, Network.ntype, refDefault]
  obtain ⟨hts, hVseq, hVsr⟩ := C1_spike_reset ModelType.LIF 1 1 1 true 5 15 0 1
    1 1 refDefault tauPscDefault (fun _ => false) VsynDefault (-303/5) 10
    (1/50) 230 (123/2000) 1 (13/2) expOne 0 1 [0] st3 st' 0 hst hj
  exact ⟨st', hst, hj, hts, hVseq rfl, hVsr⟩

/-- A step with directly injected currents and a row of the right width also
always succeeds on an SFA network (all neurons active). -/
theorem step0_some_sfa (net : Network) (exp : ℚ → ℚ)
    (hM : net.model_type = ModelType.SFA) (i : ℕ) (r : List ℚ)
    (hr : r.length = net.neuron_num) (st : NetState) :
    ∃ st', step net exp 0 i r st = some st' := by
  have hact : activeNeurons net ((i : ℚ) * net.dt) st.spikes_t =
      some (fun _ => true) := by
    simp [activeNeurons, hM]
  have heq : step net exp 0 i r st =
      stepCore net exp i ((i : ℚ) * net.dt) (fun _ => true) st.input_t
        (numpyAddRow r net.neuron_num) st := by
    unfold step
    rw [hact]
    simp
  rw [heq]
  unfold stepCore numpyAddRow
  rw [if_pos hr]
  exact ⟨_, rfl⟩

/-- C3: on an SFA network, every run_model step (step index i >= 1, positive
dt) updates each neuron's adaptation fraction by the explicit Euler rule
n := n - dt * (n/tauN - alpha*(1-n)*gate) where, for the spike-time values
reachable in a run (the -1 sentinel or an earlier positive step time), the
source's gate (t - s <= 1 and s > 0) is 1 exactly when 0 < t - s <= 1; in
particular with no spike in that window the update is the monotone decay
n := n - dt * n/tauN. -/
theorem C3_sfa_adaptation (net : Network)
    (hM : net.model_type = ModelType.SFA) (exp : ℚ → ℚ) (ity i : ℕ)
    (hi : 1 ≤ i) (hdt : 0 < net.dt) (r : List ℚ) (st st' : NetState)
    (h : step net exp ity i r st = some st') (j : ℕ)
    (hs : st.spikes_t j = -1 ∨
      (0 < st.spikes_t j ∧ st.spikes_t j < (i : ℚ) * net.dt)) :
    st'.n j = st.n j - net.dt * (st.n j / net.tauN -
      net.alpha * (1 - st.n j) *
        (if 0 < (i : ℚ) * net.dt - st.spikes_t j ∧
            (i : ℚ) * net.dt - st.spikes_t j ≤ 1 then 1 else 0)) ∧
    (¬(0 < (i : ℚ) * net.dt - st.spikes_t j ∧
        (i : ℚ) * net.dt - st.spikes_t j ≤ 1) →
      st'.n j = st.n j - net.dt * (st.n j / net.tauN)) := by
  obtain ⟨act, hact, _, _, _, _, _, hn, _⟩ := step_some_inv h
  have ht1 : (1 : ℚ) ≤ (i : ℚ) := by exact_mod_cast hi
  have ht : 0 < (i : ℚ) * net.dt := by nlinarith
  have hnj : st'.n j = K_frac net ((i : ℚ) * net.dt) st.spikes_t st.n j := by
    rw [hn]
    unfold nfracOf
    rw [hM]
    rfl
  have hgate : ((i : ℚ) * net.dt - st.spikes_t j ≤ 1 ∧ 0 < st.spikes_t j) ↔
      (0 < (i : ℚ) * net.dt - st.spikes_t j ∧
        (i : ℚ) * net.dt - st.spikes_t j ≤ 1) := by
    rcases hs with hs | ⟨hs1, hs2⟩
    · rw [hs]
      constructor
      · rintro ⟨-, h2⟩
        exact absurd h2 (by norm_num)
      · rintro ⟨-, h2⟩
        exfalso
        linarith
    · constructor
      · rintro ⟨h1, -⟩
        exact ⟨by linarith, h1⟩
      · rintro ⟨-, h2⟩
        exact ⟨h2, hs1⟩
  constructor
  · rw [hnj]
    unfold K_frac
    rw [if_congr hgate rfl rfl]
  · intro hng
    rw [hnj]
    unfold K_frac
    rw [if_neg (fun hc => hng (hgate.mp hc))]
    ring

/-- Witness for C3: on net4 (dt = 1, tauN = 2) with adaptation fraction 1 and
no spikes, one step decays n from 1 to 1 - 1 * (1/2). -/
theorem C3_sfa_adaptation_witness :
    ∃ st', step net4 expOne 0 1 [0] st4 = some st' ∧
      st'.n 0 = st4.n 0 - net4.dt * (st4.n 0 / net4.tauN) := by
  obtain ⟨st', hst⟩ := step0_some_sfa net4 expOne rfl 1 [0] rfl st4
  refine ⟨st', hst, ?_⟩
  exact (C3_sfa_adaptation net4 rfl expOne 0 1 le_rfl
    (by norm_num [net4, mkNetwork]) [0] st4 st' hst 0 (Or.inl rfl)).2
    (by norm_num [net4, mkNetwork, st4, st1])

/-- Entries looked up in an all-zero list are zero. -/
theorem getD_zero : ∀ (r : List ℚ), (∀ q ∈ r, q = 0) → ∀ j, r.getD j 0 = 0 := by
  intro r
  induction r with
  | nil => intro _ j; simp [List.getD]
  | cons a l ih =>
    intro hz j
    cases j with
    | zero => simpa using hz a (List.mem_cons_self a l)
    | succ k =>
      simpa using ih (fun q hq => hz q (List.mem_cons_of_mem a hq)) k

/-- Rewriting the recorded column under a pointwise equality. -/
theorem writeCol_congr {i : ℕ} {col col' : ℕ → ℚ} {hist : ℕ → ℕ → ℚ}
    (h : ∀ j, col j = col' j) :
    writeCol true i col hist = writeCol true i col' hist := by
  unfold writeCol
  simp only [if_true]
  funext j c
  by_cases hc : c = i
  · simp [hc, h j]
  · simp [hc]

/-- One zero-current step on a quiescent LIF network stays quiescent: the
potentials remain at Vr, nobody spikes, the sentinels stay -1, all currents
stay 0, and the history columns record Vr, 0 and 0. -/
theorem zero_step (net : Network) (exp : ℚ → ℚ)
    (hM : net.model_type = ModelType.LIF) (hVr : net.Vr < net.Vth)
    (hK : net.keep_data = true) (i : ℕ) (r : List ℚ)
    (hr : r.length = net.neuron_num) (hz : ∀ q ∈ r, q = 0) (st : NetState)
    (h1 : ∀ j, st.Vs j = net.Vr) (h2 : ∀ j, st.spikes_t j = -1)
    (h3 : ∀ j, st.Is j = 0) :
    ∃ st', step net exp 0 i r st = some st' ∧
      (∀ j, st'.Vs j = net.Vr) ∧ (∀ j, st'.spikes_t j = -1) ∧
      (∀ j, st'.Is j = 0) ∧ (∀ j, st'.spikes j = false) ∧
      (∀ j, st'.EPSC j = 0) ∧
      st'.Vseq = writeCol true i (fun _ => net.Vr) st.Vseq ∧
      st'.spikes_seq = writeCol true i (fun _ => 0) st.spikes_seq ∧
      st'.EPSC_seq = writeCol true i (fun _ => 0) st.EPSC_seq := by
  have hact : ∀ j, lifActive net ((i : ℚ) * net.dt) st.spikes_t j = true := by
    intro j
    simp [lifActive, h2 j]
  have hderiv : ∀ j,
      derivOf net ((i : ℚ) * net.dt) st.spikes_t st.n st.Vs st.Is j = 0 := by
    intro j
    simp [derivOf, hM, wiredModel, LIF_deriv, h1 j, h3 j]
  have hvs1 : ∀ j, vs1Of net ((i : ℚ) * net.dt)
      (lifActive net ((i : ℚ) * net.dt) st.spikes_t) st j = net.Vr := by
    intro j
    simp [vs1Of, integrateVs, hact j, hderiv j, h1 j]
  have hspk : ∀ j, spikes1Of net ((i : ℚ) * net.dt)
      (lifActive net ((i : ℚ) * net.dt) st.spikes_t) st j = false := by
    intro j
    simp only [spikes1Of, hvs1 j, decide_eq_false_iff_not]
    exact lt_asymm hVr
  have hspt : ∀ j, spikesT1Of net ((i : ℚ) * net.dt)
      (lifActive net ((i : ℚ) * net.dt) st.spikes_t) st j = -1 := by
    intro j
    simp [spikesT1Of, hspk j, h2 j]
  have hvs2 : ∀ j, vs2Of net ((i : ℚ) * net.dt)
      (lifActive net ((i : ℚ) * net.dt) st.spikes_t) st j = net.Vr := by
    intro j
    simp [vs2Of, hspk j, hvs1 j]
  have hsyn : ∀ j, synaptic_current net exp ((i : ℚ) * net.dt)
      (spikesT1Of net ((i : ℚ) * net.dt)
        (lifActive net ((i : ℚ) * net.dt) st.spikes_t) st) j = 0 := by
    intro j
    have hm1 : ((-1 : ℚ) < 0) := by norm_num
    simp [synaptic_current, hM, wiredModel, synaptic_current_LIF, hspt j, hm1]
  have hepsc : ∀ k, epscOf net exp ((i : ℚ) * net.dt)
      (lifActive net ((i : ℚ) * net.dt) st.spikes_t) st k = 0 := by
    intro k
    have harm : epscOf net exp ((i : ℚ) * net.dt)
        (lifActive net ((i : ℚ) * net.dt) st.spikes_t) st k =
        (Finset.range net.neuron_num).sum (fun j => st.conn k j *
          synaptic_current net exp ((i : ℚ) * net.dt)
            (spikesT1Of net ((i : ℚ) * net.dt)
              (lifActive net ((i : ℚ) * net.dt) st.spikes_t) st) j) := by
      unfold epscOf
      rw [hM]
    rw [harm]
    exact Finset.sum_eq_zero (fun j _ => by rw [hsyn j, mul_zero])
  have hstep : step net exp 0 i r st = some
      { st with
        t := (i : ℚ) * net.dt
        spikes := spikes1Of net ((i : ℚ) * net.dt)
          (lifActive net ((i : ℚ) * net.dt) st.spikes_t) st
        spikes_t := spikesT1Of net ((i : ℚ) * net.dt)
          (lifActive net ((i : ℚ) * net.dt) st.spikes_t) st
        n := nfracOf net ((i : ℚ) * net.dt) st.spikes_t st.n
        Vs := fun j => if spikes1Of net ((i : ℚ) * net.dt)
            (lifActive net ((i : ℚ) * net.dt) st.spikes_t) st j then net.Vreset
          else vs2Of net ((i : ℚ) * net.dt)
            (lifActive net ((i : ℚ) * net.dt) st.spikes_t) st j
        EPSC := epscOf net exp ((i : ℚ) * net.dt)
          (lifActive net ((i : ℚ) * net.dt) st.spikes_t) st
        Is := fun j => r.getD j 0 + epscOf net exp ((i : ℚ) * net.dt)
          (lifActive net ((i : ℚ) * net.dt) st.spikes_t) st j
        input_t := st.input_t
        Vseq := writeCol net.keep_data i (vs2Of net ((i : ℚ) * net.dt)
          (lifActive net ((i : ℚ) * net.dt) st.spikes_t) st) st.Vseq
        spikes_seq := writeCol net.keep_data i
          (fun j => if spikes1Of net ((i : ℚ) * net.dt)
            (lifActive net ((i : ℚ) * net.dt) st.spikes_t) st j then 1 else 0)
          st.spikes_seq
        EPSC_seq := writeCol net.keep_data i (epscOf net exp ((i : ℚ) * net.dt)
          (lifActive net ((i : ℚ) * net.dt) st.spikes_t) st) st.EPSC_seq } := by
    rw [(step0_some net exp hM i r hr st).1]
    unfold stepCore numpyAddRow
    rw [if_pos hr]
    rfl
  refine ⟨_, hstep, ?_, ?_, ?_, ?_, ?_, ?_, ?_, ?_⟩
  · intro j
    simp only [hspk j, if_false]
    exact hvs2 j
  · intro j
    exact hspt j
  · intro j
    simp only []
    rw [getD_zero r hz j, hepsc j, add_zero]
  · intro j
    exact hspk j
  · intro j
    exact hepsc j
  · rw [hK]
    exact writeCol_congr hvs2
  · rw [hK]
    exact writeCol_congr (fun j => by rw [hspk j]; rfl)
  · rw [hK]
    exact writeCol_congr hepsc

/-- The loop of run_model preserves quiescence of a zero-driven LIF network,
accumulating Vr in the recorded potential columns and zeros in the recorded
spike and EPSC columns. -/
theorem zero_runAux (net : Network) (exp : ℚ → ℚ)
    (hM : net.model_type = ModelType.LIF) (hVr : net.Vr < net.Vth)
    (hK : net.keep_data = true) :
    ∀ (I : List (List ℚ)) (i : ℕ) (st : NetState),
      (∀ r ∈ I, r.length = net.neuron_num ∧ ∀ q ∈ r, q = 0) →
      (∀ j, st.Vs j = net.Vr) → (∀ j, st.spikes_t j = -1) →
      (∀ j, st.Is j = 0) → (∀ j, st.spikes j = false) →
      (∀ j, st.EPSC j = 0) →
      (∀ j c, c < i → st.Vseq j c = net.Vr) →
      (∀ j c, st.spikes_seq j c = 0) → (∀ j c, st.EPSC_seq j c = 0) →
      ∃ st', runAux net exp 0 i I st = some st' ∧
        (∀ j, st'.Vs j = net.Vr) ∧ (∀ j, st'.spikes_t j = -1) ∧
        (∀ j, st'.Is j = 0) ∧ (∀ j, st'.spikes j = false) ∧
        (∀ j, st'.EPSC j = 0) ∧
        (∀ j c, c < i + I.length → st'.Vseq j c = net.Vr) ∧
        (∀ j c, st'.spikes_seq j c = 0) ∧ (∀ j c, st'.EPSC_seq j c = 0) := by
  intro I
  induction I with
  | nil =>
    intro i st _ hVs hsp hIs hspike hE hVseq hss hEs
    refine ⟨st, rfl, hVs, hsp, hIs, hspike, hE, ?_, hss, hEs⟩
    intro j c hc
    exact hVseq j c (by simpa using hc)
  | cons r rest ih =>
    intro i st hI hVs hsp hIs hspike hE hVseq hss hEs
    obtain ⟨st1, hstep, hVs1, hsp1, hIs1, hspike1, hE1, hVseq1, hss1, hEs1⟩ :=
      zero_step net exp hM hVr hK i r (hI r (List.mem_cons_self r rest)).1
        (hI r (List.mem_cons_self r rest)).2 st hVs hsp hIs
    have hVseq1' : ∀ j c, c < i + 1 → st1.Vseq j c = net.Vr := by
      intro j c hc
      rw [hVseq1]
      unfold writeCol
      simp only [if_true]
      by_cases hci : c = i
      · simp [hci]
      · simp only [hci, if_false]
        exact hVseq j c (by omega)
    have hss1' : ∀ j c, st1.spikes_seq j c = 0 := by
      intro j c
      rw [hss1]
      unfold writeCol
      simp only [if_true]
      by_cases hci : c = i
      · simp [hci]
      · simp [hci, hss j c]
    have hEs1' : ∀ j c, st1.EPSC_seq j c = 0 := by
      intro j c
      rw [hEs1]
      unfold writeCol
      simp only [if_true]
      by_cases hci : c = i
      · simp [hci]
      · simp [hci, hEs j c]
    obtain ⟨st', hrun, ha, hb, hc', hd, he, hf, hg, hh⟩ :=
      ih (i + 1) st1 (fun r' hr' => hI r' (List.mem_cons_of_mem r hr'))
        hVs1 hsp1 hIs1 hspike1 hE1 hVseq1' hss1' hEs1'
    refine ⟨st', ?_, ha, hb, hc', hd, he, ?_, hg, hh⟩
    · unfold runAux
      rw [hstep]
      exact hrun
    · intro j c hcb
      exact hf j c (by simp at hcb ⊢; omega)

/-- C4: for a LIF network with Vr < Vth and full recording, run_model on an
all-zero injected-current array (input_type 0, rows of the network's width)
succeeds, every neuron's potential stays at Vr at every step (including all
recorded history columns), no neuron ever spikes (the recorded spike series
is identically zero), the last-spike sentinels stay -1, and every synaptic
current (current and recorded) is 0. -/
theorem C4_zero_input_stability (net : Network) (exp : ℚ → ℚ)
    (hM : net.model_type = ModelType.LIF) (hVr : net.Vr < net.Vth)
    (hK : net.keep_data = true) (I : List (List ℚ))
    (hI : ∀ r ∈ I, r.length = net.neuron_num ∧ ∀ q ∈ r, q = 0)
    (st : NetState) :
    ∃ st', run_model net exp I 0 st = some st' ∧
      (∀ j, st'.Vs j = net.Vr) ∧ (∀ j, st'.spikes j = false) ∧
      (∀ j, st'.spikes_t j = -1) ∧ (∀ j, st'.EPSC j = 0) ∧
      (∀ j, st'.Is j = 0) ∧
      (∀ j c, c ≤ I.length → st'.Vseq j c = net.Vr) ∧
      (∀ j c, st'.spikes_seq j c = 0) ∧ (∀ j c, st'.EPSC_seq j c = 0) := by
  unfold run_model
  simp only [hK, if_true]
  obtain ⟨st', hrun, ha, hb, hc', hd, he, hf, hg, hh⟩ :=
    zero_runAux net exp hM hVr hK I 1
      { reset_history net st with
        Vseq := fun j c => if c = 0 then (reset_history net st).Vs j else 0
        spikes_seq := fun _ _ => 0
        EPSC_seq := fun _ _ => 0 }
      hI (fun _ => rfl) (fun _ => rfl) (fun _ => rfl) (fun _ => rfl)
      (fun _ => rfl)
      (by
        intro j c hc
        interval_cases c
        simp [reset_history])
      (fun _ _ => rfl) (fun _ _ => rfl)
  exact ⟨st', hrun, ha, hd, hb, he, hc', fun j c hcb => hf j c (by omega),
    hg, hh⟩

/-- Witness for C4 on net3 with a one-step all-zero input. -/
theorem C4_zero_input_stability_witness :
    ∃ st', run_model net3 expOne [[0]] 0 st1 = some st' ∧
      st'.Vs 0 = net3.Vr ∧ st'.spikes 0 = false ∧ st'.Vseq 0 1 = net3.Vr ∧
      st'.spikes_seq 0 1 = 0 := by
  obtain ⟨st', h, hVs, hsp, _, _, _, hVseq, hss, _⟩ :=
    C4_zero_input_stability net3 expOne rfl (by norm_num [net3, mkNetwork]) rfl
      [[0]]
      (by
        intro r hr
        simp only [List.mem_singleton] at hr
        subst hr
        exact ⟨by simp [net3, mkNetwork], by simp⟩)
      st1
  exact ⟨st', h, hVs 0, hsp 0, hVseq 0 1 (by norm_num), hss 0 1⟩

/-- For both models that run_model supports (every model string other than
SOC), the active set of a step resolves to some function. -/
theorem activeNeurons_some (net : Network)
    (hMne : net.model_type ≠ ModelType.SOC) (t : ℚ) (sp : ℕ → ℚ) :
    ∃ act, activeNeurons net t sp = some act := by
  cases hm : net.model_type with
  | LIF => exact ⟨lifActive net t sp, by simp [activeNeurons, hm]⟩
  | SFA => exact ⟨fun _ => true, by simp [activeNeurons, hm]⟩
  | SOC => exact absurd hm hMne

/-- A spike-train step (input_type 1) whose row is all zero succeeds on any
LIF or SFA network regardless of the row's width: np.where finds no nonzero
channel, so no out-of-range index is touched. -/
theorem step1_zero_some (net : Network) (exp : ℚ → ℚ)
    (hMne : net.model_type ≠ ModelType.SOC) (i : ℕ) (r : List ℚ)
    (hz : ∀ q ∈ r, q = 0) (st : NetState) :
    ∃ st', step net exp 1 i r st = some st' := by
  have hnz : nonzeroIdx r = [] := by
    unfold nonzeroIdx
    rw [List.filter_eq_nil_iff]
    intro c _
    rw [getD_zero r hz c]
    simp
  obtain ⟨act, hact⟩ := activeNeurons_some net hMne ((i : ℚ) * net.dt) st.spikes_t
  unfold step
  rw [hact]
  simp only [Option.some_bind]
  rw [if_pos (by norm_num : (1 : ℕ) ≠ 0), hnz]
  simp only [List.all_nil, if_true]
  unfold stepCore
  exact ⟨_, rfl⟩

/-- A step with a conforming row (neuron width for input_type 0, input-channel
width otherwise) succeeds on any LIF or SFA network, whatever the row's
entries: for a spike-train row every nonzero index is below the row length
and hence below the channel count, and for a current row the numpy sum of
line 296 is between arrays of equal length. -/
theorem step_conforming_some (net : Network) (exp : ℚ → ℚ)
    (hMne : net.model_type ≠ ModelType.SOC) (ity i : ℕ) (r : List ℚ)
    (st : NetState)
    (hr : r.length = if ity = 0 then net.neuron_num else net.input_num) :
    ∃ st', step net exp ity i r st = some st' := by
  obtain ⟨act, hact⟩ := activeNeurons_some net hMne ((i : ℚ) * net.dt) st.spikes_t
  unfold step
  rw [hact]
  simp only [Option.some_bind]
  by_cases h0 : ity = 0
  · subst h0
    rw [if_pos rfl] at hr
    rw [if_neg (by norm_num : ¬((0 : ℕ) ≠ 0))]
    unfold stepCore numpyAddRow
    rw [if_pos hr]
    exact ⟨_, rfl⟩
  · rw [if_neg h0] at hr
    rw [if_pos h0]
    have hall : ((nonzeroIdx r).all fun c => decide (c < net.input_num)) = true := by
      rw [List.all_eq_true]
      intro c hc
      have hmem : c ∈ List.range r.length := List.mem_of_mem_filter hc
      rw [List.mem_range] at hmem
      simp only [decide_eq_true_eq]
      omega
    rw [if_pos hall]
    unfold stepCore
    exact ⟨_, rfl⟩

/-- If every row of the injected array admits a successful step, the loop of
run_model consumes all rows with no early stop, and the final clock reads
the time of the last consumed row. -/
theorem runAux_total (net : Network) (exp : ℚ → ℚ) (ity : ℕ)
    (P : List ℚ → Prop)
    (hstep : ∀ (i : ℕ) (r : List ℚ) (st : NetState), P r →
      ∃ st', step net exp ity i r st = some st') :
    ∀ (I : List (List ℚ)) (i : ℕ) (st : NetState), (∀ r ∈ I, P r) →
      ∃ st', runAux net exp ity i I st = some st' ∧
        (I = [] → st' = st) ∧
        (I ≠ [] → st'.t = ((i + I.length - 1 : ℕ) : ℚ) * net.dt) := by
  intro I
  induction I with
  | nil =>
    intro i st _
    exact ⟨st, rfl, fun _ => rfl, fun h => absurd rfl h⟩
  | cons r rest ih =>
    intro i st hP
    obtain ⟨st1, h1⟩ := hstep i r st (hP r (List.mem_cons_self r rest))
    obtain ⟨_, _, _, _, ht1, _⟩ := step_some_inv h1
    obtain ⟨st', hrun, hnil, hne⟩ :=
      ih (i + 1) st1 (fun r' h' => hP r' (List.mem_cons_of_mem r h'))
    refine ⟨st', ?_, fun h => absurd h (List.cons_ne_nil r rest), fun _ => ?_⟩
    · unfold runAux
      rw [h1]
      exact hrun
    · cases rest with
      | nil =>
        have hst : st' = st1 := hnil rfl
        rw [hst, ht1]
        norm_num
      | cons r2 rest2 =>
        have hthis := hne (by simp)
        rw [hthis]
        congr 2
        simp [List.length_cons]
        omega

/-- run_model with a spike-train input (input_type 1) whose entries are all
zero completes on any LIF or SFA network whatever the rows' widths are. -/
theorem run_model_zero_spiketrain (net : Network) (exp : ℚ → ℚ)
    (hMne : net.model_type ≠ ModelType.SOC) (I : List (List ℚ))
    (hz : ∀ r ∈ I, ∀ q ∈ r, q = 0) (st : NetState) :
    ∃ st', run_model net exp I 1 st = some st' := by
  obtain ⟨st', hrun, -, -⟩ :=
    runAux_total net exp 1 (fun r => ∀ q ∈ r, q = 0)
      (fun i r s hP => step1_zero_some net exp hMne i r hP s) I 1 _ hz
  exact ⟨st', hrun⟩

/-- run_model with a conforming injected array (rows of the network's neuron
width for input_type 0, of its input-channel width otherwise, entries
arbitrary) on any LIF or SFA network runs exactly I.length steps with no
early stop: it succeeds and, when at least one row exists, the final clock
is I.length * dt. -/
theorem run_model_conforming (net : Network) (exp : ℚ → ℚ)
    (hMne : net.model_type ≠ ModelType.SOC) (ity : ℕ) (I : List (List ℚ))
    (hr : ∀ r ∈ I, r.length = if ity = 0 then net.neuron_num else net.input_num)
    (st : NetState) :
    ∃ st', run_model net exp I ity st = some st' ∧
      (1 ≤ I.length → st'.t = (I.length : ℚ) * net.dt) := by
  obtain ⟨st', hrun, -, hne⟩ :=
    runAux_total net exp ity
      (fun r => r.length = if ity = 0 then net.neuron_num else net.input_num)
      (fun i r s hP => step_conforming_some net exp hMne ity i r s hP) I 1 _ hr
  refine ⟨st', hrun, fun hlen => ?_⟩
  have hIne : I ≠ [] := by
    cases I with
    | nil => simp at hlen
    | cons a l => exact List.cons_ne_nil a l
  rw [hne hIne]
  congr 2
  omega

/-- C8 counterexample: run_model on net1 (one neuron, ONE input channel) fed
a one-step spike-train array with THREE channels - a channel dimension that
disagrees with the network - does not fail at all: it runs to completion.
The source (lines 229-251) performs no shape validation whatsoever. -/
theorem C8_shape_counterexample :
    (∃ st', run_model net1 expOne [[0, 0, 0]] 1 st1 = some st') ∧
    ¬([(0 : ℚ), 0, 0].length = net1.input_num) ∧
    ¬([(0 : ℚ), 0, 0].length = net1.neuron_num) := by
  refine ⟨?_, by simp [net1, mkNetwork], by simp [net1, mkNetwork]⟩
  exact run_model_zero_spiketrain net1 expOne (by simp [net1, mkNetwork])
    [[0, 0, 0]] (by intro r hr q hq; simp at hr; subst hr; simpa using hq) st1

/-- C8 amended: run_model performs no shape validation.  A nonconforming
injected array need not fail before simulation begins: an all-zero
spike-train array of any channel width completes the whole run on any LIF
or SFA network.  And for every conforming array - rows of the network's
neuron width for input_type 0, of its input-channel width for input_type 1,
entries arbitrary - on any LIF or SFA network, the loop runs exactly
I.shape[0] steps with no early stop. -/
theorem C8_no_shape_validation (net : Network) (exp : ℚ → ℚ)
    (hMne : net.model_type ≠ ModelType.SOC) :
    (∀ I st, (∀ r ∈ I, ∀ q ∈ r, q = 0) →
      ∃ st', run_model net exp I 1 st = some st') ∧
    (∀ ity I st,
      (∀ r ∈ I, r.length = if ity = 0 then net.neuron_num else net.input_num) →
      ∃ st', run_model net exp I ity st = some st' ∧
        (1 ≤ I.length → st'.t = (I.length : ℚ) * net.dt)) :=
  ⟨fun I st hz => run_model_zero_spiketrain net exp hMne I hz st,
   fun ity I st hr => run_model_conforming net exp hMne ity I hr st⟩

/-- Witness for C8's amended statement at concrete runs: a mismatched
all-zero spike train on net1, a conforming NONZERO spike train on net1
(input_type 1), and a conforming current array on the SFA network net4. -/
theorem C8_no_shape_validation_witness :
    (∃ st', run_model net1 expOne [[0, 0]] 1 st1 = some st') ∧
    (∃ st', run_model net1 expOne [[1]] 1 st1 = some st' ∧ st'.t = net1.dt) ∧
    (∃ st', run_model net4 expOne [[0]] 0 st1 = some st' ∧ st'.t = net4.dt) := by
  obtain ⟨h1, h2⟩ := C8_no_shape_validation net1 expOne (by simp [net1, mkNetwork])
  refine ⟨h1 [[0, 0]] st1
    (by intro r hr q hq; simp at hr; subst hr; simpa using hq), ?_, ?_⟩
  · obtain ⟨st', hrun, ht⟩ := h2 1 [[1]] st1 (by simp [net1, mkNetwork])
    refine ⟨st', hrun, ?_⟩
    have := ht (by simp)
    simpa using this
  · obtain ⟨-, h4⟩ := C8_no_shape_validation net4 expOne (by simp [net4, mkNetwork])
    obtain ⟨st', hrun, ht⟩ := h4 0 [[0]] st1 (by simp [net4, mkNetwork])
    refine ⟨st', hrun, ?_⟩
    have := ht (by simp)
    simpa using this

end NeuralSim
